import Mathlib

/-!
Verification of the getdrive resumable transfer pipeline.

This file gives a shallow embedding of the core of the repository:

* `sync_gdrive.py` — the tree orchestrator (`process_node`), the progress
  ledger (`load_progress` / `save_progress`), name sanitization
  (`sanitize_name`) and the entry point (`main`);
* `capture_urls2.py` — the chunked multi-threaded fetcher
  (`download_file_multithread`).

External effects (the rclone remote gateway, HTTP requests, the browser
collaborator, the filesystem) are modelled as explicit environments; the
embedding records every external invocation as an event so that claims
about "no redundant calls" become statements about event traces.
-/

namespace Getdrive

/-! ## Name sanitization — sync_gdrive.py, `sanitize_name` (lines 455-465)

    invalid = '<>:"|?*'; each occurrence replaced by '_';
    then trailing '.' and ' ' are stripped; empty result becomes '_unnamed_'. -/

def invalidChars : List Char := ['<', '>', ':', '"', '|', '?', '*']

/-- One pass of `name.replace(c, '_')` for every `c` in `invalid`. -/
def replaceInvalid (cs : List Char) : List Char :=
  cs.map fun c => if c ∈ invalidChars then '_' else c

/-- The character class stripped by `name.rstrip('. ')`. -/
def stripTrail (c : Char) : Bool := c = '.' || c = ' '

/-- `name.rstrip('. ')` on the character list. -/
def rstripDotSpace (cs : List Char) : List Char :=
  (cs.reverse.dropWhile stripTrail).reverse

/-- `sanitize_name` from sync_gdrive.py. -/
def sanitize_name (s : String) : String :=
  let cs := rstripDotSpace (replaceInvalid s.data)
  if cs = [] then "_unnamed_" else String.mk cs

/-! ## Chunk plan — capture_urls2.py, `download_file_multithread` (lines 115-122)

    part_size = total_size // num_threads
    start = i * part_size
    end   = (i + 1) * part_size - 1  if i < num_threads - 1  else total_size - 1

    Python integers are unbounded and signed, so the closed interval ends are
    modelled in `Int` (for small `total_size` the non-final ends can be `-1`,
    giving an empty range, exactly as in Python). -/

def part_size (totalSize numThreads : Nat) : Nat := totalSize / numThreads

def part_start (totalSize numThreads i : Nat) : Int :=
  (i : Int) * (part_size totalSize numThreads : Int)

def part_end (totalSize numThreads i : Nat) : Int :=
  if i < numThreads - 1 then
    ((i : Int) + 1) * (part_size totalSize numThreads : Int) - 1
  else
    (totalSize : Int) - 1

/-- Byte `k` lies in the closed range of part `i`. -/
def inPart (totalSize numThreads i k : Nat) : Prop :=
  part_start totalSize numThreads i ≤ (k : Int) ∧
    (k : Int) ≤ part_end totalSize numThreads i

instance (T n i k : Nat) : Decidable (inPart T n i k) := by
  unfold inPart; exact instDecidableAnd

/-! ## Tree orchestrator — sync_gdrive.py, `process_node` (lines 478-600)

    Nodes are the JSON dicts of output.json: `node.get('name')`,
    `node.get('type')`, `node.get('mimeType')`, `node.get('id')`,
    `node.get('link')`, `node.get('children', [])`. -/

/-- One JSON tree node (name, type, mimeType, id, link, children). -/
inductive Node where
  | mk (name ntype mimeType id link : String) (children : List Node)
deriving Inhabited

/-- The in-memory progress ledger: `done_ids`, `failed_ids`,
    `created_folders` (sets of strings, see `load_progress`). -/
structure Progress where
  done_ids : Finset String
  failed_ids : Finset String
  created_folders : Finset String
deriving DecidableEq

/-- Aggregate run statistics, see `main` and `log_progress`. -/
structure Stats where
  total_files : Nat
  done : Nat
  skipped : Nat
  failed : Nat
deriving DecidableEq, Repr

/-- Per-file terminal outcome (spec vocabulary; in the code these are the
    four terminal branches of the file case of `process_node`). -/
inductive TransferOutcome where
  | completed
  | skippedAlreadyDone
  | skippedAlreadyOnRemote
  | failed
deriving DecidableEq, Repr

/-- Externally visible actions of one orchestration run:
    `mkdir` = `create_folder` (rclone mkdir), `listRemote` =
    `file_exists_remote` (rclone lsf), `fetchVideo` = the `capture_urls2.py`
    subprocess, `fetchDirect` = `download_file_direct` (HTTP GET),
    `copyUp` = `upload_and_cleanup` (rclone copy), plus the terminal
    outcome recorded per file node. -/
inductive Event where
  | mkdir (path : String)
  | listRemote (dir : String)
  | fetchVideo (link : String)
  | fetchDirect (id : String)
  | copyUp (localPath remoteDir : String)
  | outcome (o : TransferOutcome)
deriving DecidableEq, Repr

/-- Results of the external collaborators, indexed by the arguments the code
    passes them.  `videoResult link name` is the local path returned by
    `download_video` (none on failure); the other fields are success flags. -/
structure Env where
  mkdirOk : String → Bool
  existsRemote : String → String → Bool
  videoResult : String → String → Option String
  directOk : String → String → Bool
  uploadOk : String → String → Bool

/-- Combined mutable state threaded through `process_node`
    (the Python `stats` and `progress` dicts). -/
structure St where
  stats : Stats
  prog : Progress
deriving DecidableEq

def TEMP_DIR : String := "_temp_download"

/-- `stats['total_files'] += 1` -/
def addTotal (st : St) : St := { st with stats := { st.stats with total_files := st.stats.total_files + 1 } }

/-- `stats['skipped'] += 1; stats['done'] += 1` (both skip branches). -/
def addSkipDone (st : St) : St := { st with stats := { st.stats with skipped := st.stats.skipped + 1, done := st.stats.done + 1 } }

/-- `stats['done'] += 1` -/
def addDone (st : St) : St := { st with stats := { st.stats with done := st.stats.done + 1 } }

/-- `stats['failed'] += 1` -/
def addFailed (st : St) : St := { st with stats := { st.stats with failed := st.stats.failed + 1 } }

/-- `progress['created_folders'].add(folder_path)` -/
def recordFolder (path : String) (st : St) : St := { st with prog := { st.prog with created_folders := insert path st.prog.created_folders } }

/-- `progress['done_ids'].add(file_id)` (remote-exists skip branch). -/
def recordDone (id : String) (st : St) : St := { st with prog := { st.prog with done_ids := insert id st.prog.done_ids } }

/-- `progress['done_ids'].add(file_id); progress['failed_ids'].discard(file_id)` -/
def recordDoneClearFailed (id : String) (st : St) : St := { st with prog := { st.prog with done_ids := insert id st.prog.done_ids, failed_ids := st.prog.failed_ids.erase id } }

/-- `progress['failed_ids'].add(file_id)` -/
def recordFailed (id : String) (st : St) : St := { st with prog := { st.prog with failed_ids := insert id st.prog.failed_ids } }


/-- `upload_and_cleanup` plus the per-outcome stats/ledger bookkeeping shared
    by the video and generic file branches of `process_node`
    (sync_gdrive.py lines 546-559 and 579-592): run rclone copy on the local
    artifact; on success count it done and record done_ids.add /
    failed_ids.discard, on failure count it failed and record
    failed_ids.add.  Ledger updates happen only live and only for a
    non-empty id. -/
def finishUpload (env : Env) (dryRun : Bool) (id p remoteParent : String)
    (st1 : St) (preEvs : List Event) : St × List Event :=
  let upEvs := if dryRun then [] else [Event.copyUp p remoteParent]
  if dryRun || env.uploadOk p remoteParent then
    let st2 := addDone st1
    (if dryRun = false ∧ id ≠ "" then recordDoneClearFailed id st2 else st2,
     preEvs ++ upEvs ++ [Event.outcome .completed])
  else
    let st2 := addFailed st1
    (if dryRun = false ∧ id ≠ "" then recordFailed id st2 else st2,
     preEvs ++ upEvs ++ [Event.outcome .failed])

/-- The download-failed bookkeeping of `process_node`
    (sync_gdrive.py lines 560-565 and 593-598). -/
def failDownload (dryRun : Bool) (id : String) (st1 : St)
    (preEvs : List Event) : St × List Event :=
  let st2 := addFailed st1
  (if dryRun = false ∧ id ≠ "" then recordFailed id st2 else st2,
   preEvs ++ [Event.outcome .failed])

/-- The transfer dispatch of the file branch of `process_node`
    (sync_gdrive.py lines 540-598): `mimeType == 'video/mp4'` goes through
    `download_video` (the capture_urls2.py subprocess), everything else
    through `download_file_direct`; both then upload via
    `upload_and_cleanup`. -/
def transferFile (env : Env) (dryRun : Bool)
    (name mimeType id link remoteParent : String) (st1 : St)
    (lsfEvs : List Event) : St × List Event :=
  if mimeType = "video/mp4" then
    let dlEvs := if dryRun then [] else [Event.fetchVideo link]
    match (if dryRun then some (TEMP_DIR ++ "/" ++ sanitize_name name)
           else env.videoResult link (sanitize_name name)) with
    | some p => finishUpload env dryRun id p remoteParent st1 (lsfEvs ++ dlEvs)
    | none => failDownload dryRun id st1 (lsfEvs ++ dlEvs)
  else
    let p := TEMP_DIR ++ "/" ++ sanitize_name name
    let dlEvs := if dryRun then [] else [Event.fetchDirect id]
    if dryRun || env.directOk id (sanitize_name name) then
      finishUpload env dryRun id p remoteParent st1 (lsfEvs ++ dlEvs)
    else
      failDownload dryRun id st1 (lsfEvs ++ dlEvs)

/-- The non-recursive part of `process_node`: the `node_type == 'file'`
    branch (sync_gdrive.py lines 517-600) — the two resume checks followed
    by the transfer dispatch — and the silent fall-through for any other
    non-folder node type. -/
def processLeaf (env : Env) (dryRun : Bool)
    (name ntype mimeType id link remoteParent : String) (st : St) :
    St × List Event :=
  if ntype = "file" then
    let st1 := addTotal st
    -- Resume check 1: skip if id already in done_ids
    if dryRun = false ∧ id ≠ "" ∧ id ∈ st1.prog.done_ids then
      (addSkipDone st1, [Event.outcome .skippedAlreadyDone])
    else
      -- Resume check 2: rclone lsf is invoked whenever not dry_run
      let lsfEvs := if dryRun then [] else [Event.listRemote remoteParent]
      if dryRun = false ∧ env.existsRemote remoteParent (sanitize_name name) = true then
        -- done_ids.add(file_id) but NO failed_ids.discard here
        let st2 := addSkipDone st1
        (if id ≠ "" then recordDone id st2 else st2,
         lsfEvs ++ [Event.outcome .skippedAlreadyOnRemote])
      else
        transferFile env dryRun name mimeType id link remoteParent st1 lsfEvs
  else
    (st, [])

/-- The destination path of a folder node:
    `folder_path = f"{remote_parent_path}/{safe_name}"` when the parent path
    is non-empty, else `safe_name` (sync_gdrive.py lines 490-493). -/
def folderDest (remoteParent name : String) : String :=
  if remoteParent = "" then sanitize_name name
  else remoteParent ++ "/" ++ sanitize_name name

mutual

/-- Shallow embedding of `process_node(node, remote_parent_path, cookie_state,
    stats, progress, dry_run)`.  Returns the updated state and the trace of
    external events.  `save_progress` calls persist the same in-memory sets
    and are modelled separately (`save_progress_ops`); cookie refresh touches
    no state used by any claim and is omitted. -/
def processNode (env : Env) (dryRun : Bool) (n : Node) (remoteParent : String)
    (st : St) : St × List Event :=
  match n with
  | .mk name ntype mimeType id link children =>
    if ntype = "folder" then
      -- skip mkdir if already created in previous run (live mode only)
      if folderDest remoteParent name ∈ st.prog.created_folders ∧ dryRun = false then
        processChildren env dryRun children (folderDest remoteParent name) st
      else
        -- create_folder(folder_path, dry_run); its result is ignored;
        -- then (live mode only) created_folders.add(folder_path)
        ((processChildren env dryRun children (folderDest remoteParent name)
            (if dryRun then st else recordFolder (folderDest remoteParent name) st)).1,
         (if dryRun then [] else [Event.mkdir (folderDest remoteParent name)]) ++
           (processChildren env dryRun children (folderDest remoteParent name)
             (if dryRun then st else recordFolder (folderDest remoteParent name) st)).2)
    else
      processLeaf env dryRun name ntype mimeType id link remoteParent st

/-- The `for child in children` loop of the folder branch. -/
def processChildren (env : Env) (dryRun : Bool) (cs : List Node)
    (folderPath : String) (st : St) : St × List Event :=
  match cs with
  | [] => (st, [])
  | c :: rest =>
    ((processChildren env dryRun rest folderPath
        (processNode env dryRun c folderPath st).1).1,
     (processNode env dryRun c folderPath st).2 ++
       (processChildren env dryRun rest folderPath
         (processNode env dryRun c folderPath st).1).2)

end

/-- `True` exactly when the event is the per-file terminal outcome record. -/
def isOutcome : Event → Bool
  | .outcome _ => true
  | _ => false

/-! ## Ledger persistence — sync_gdrive.py, `save_progress` (lines 63-83)

    data = {done_ids: sorted(...), failed_ids: sorted(...),
            created_folders: sorted(...), ...}
    write data to PROGRESS_FILE + '.tmp', then os.replace / os.rename
    (both are atomic moves) onto PROGRESS_FILE. -/

def PROGRESS_FILE : String := "_sync_progress.json"

def tmpPath : String := PROGRESS_FILE ++ ".tmp"

/-- Contents of a serialized ledger file: the three sorted id/path lists
    (the derived display fields `last_updated` / `total_done` /
    `total_failed` carry no additional state). -/
abbrev LedgerData := List String × List String × List String

/-- The JSON object `save_progress` writes, as structured data. -/
def serialize_ledger (p : Progress) : LedgerData :=
  (p.done_ids.sort (· ≤ ·), p.failed_ids.sort (· ≤ ·),
   p.created_folders.sort (· ≤ ·))

/-- Filesystem steps available to `save_progress`:  a (non-atomic) whole-file
    write, and the atomic rename `os.replace`/`os.rename`. -/
inductive FsOp where
  | write (path : String) (content : LedgerData)
  | replace (src dst : String)

/-- A filesystem: path to parsed file contents. -/
def FS : Type := String → Option LedgerData

def applyOp (fs : FS) : FsOp → FS
  | .write p c => fun q => if q = p then some c else fs q
  | .replace src dst =>
      fun q => if q = dst then fs src else if q = src then none else fs q

def runOps (fs : FS) (ops : List FsOp) : FS := ops.foldl applyOp fs

/-- The step sequence of `save_progress`: serialize the full ledger to the
    sibling `.tmp` file, then atomically move it onto the ledger path.  A
    crash is modelled as executing only a prefix of this list. -/
def save_progress_ops (p : Progress) : List FsOp :=
  [.write tmpPath (serialize_ledger p), .replace tmpPath PROGRESS_FILE]

/-! ## Chunked fetcher — capture_urls2.py, `download_file_multithread`
    (lines 89-187) -/

/-- External observations of one `download_file_multithread` call:
    the HEAD probe content-length (`none` = the request raised), the size of
    a pre-existing destination file, per-part success, and the size the
    destination file ends up with after the merge step. -/
structure FetchEnv where
  probe : Option Nat
  preSize : Option Nat
  partOk : Nat → Bool
  mergedSize : Nat

/-- Return value of `download_file_multithread`:
    the Python function returns the string 'redirect', False, or True. -/
inductive DlResult where
  | redirect
  | failure
  | success
deriving DecidableEq, Repr

/-- Result of one modelled call: outcome, the byte ranges requested, and
    whether the destination file exists when the call returns. -/
structure DlRun where
  result : DlResult
  ranges : List (Int × Int)
  fileExistsAfter : Bool
deriving DecidableEq, Repr

/-- Destination-file existence right after the initial debris cleanup
    (a pre-existing file smaller than 10 KB is deleted, lines 96-100). -/
def destExists0 (env : FetchEnv) : Bool :=
  match env.preSize with
  | none => false
  | some s => if s < 10000 then false else true

/-- Shallow embedding of `download_file_multithread(url, filename,
    cookies_dict, headers, num_threads)`.  The probe failure / missing
    content-length is `total_size = 0`; sizes below 10000 return 'redirect'
    before any range request; otherwise all `num_threads` byte ranges are
    requested, the parts merged into the destination, and the final size is
    verified against `total_size * 0.95` (the Python float literal `0.95`
    modelled exactly as the rational 19/20).  On a failed verify the merged
    destination file is returned as-is — not deleted. -/
def download_file_multithread (env : FetchEnv) (numThreads : Nat) : DlRun :=
  let total_size := env.probe.getD 0
  if total_size < 10000 then
    { result := .redirect, ranges := [], fileExistsAfter := destExists0 env }
  else
    let parts := (List.range numThreads).map fun i =>
      (part_start total_size numThreads i, part_end total_size numThreads i)
    if (List.range numThreads).all env.partOk then
      -- merge writes the destination, then: final_size >= total_size * 0.95
      if env.mergedSize * 20 < total_size * 19 then
        { result := .failure, ranges := parts, fileExistsAfter := true }
      else
        { result := .success, ranges := parts, fileExistsAfter := true }
    else
      -- a failed part: all part files deleted, destination never written
      { result := .failure, ranges := parts, fileExistsAfter := destExists0 env }

/-! ## Entry point — sync_gdrive.py, `main` (lines 606-717) -/

/-- What loading the input tree file yields: missing file
    (`FileNotFoundError`), unparsable contents (`json.JSONDecodeError`),
    or a parsed tree. -/
inductive LoadResult where
  | missing
  | badJson
  | ok (tree : Node)

/-- External circumstances of one `main()` invocation. -/
structure MainEnv where
  rcloneOk : Bool
  load : LoadResult
  initLedger : Progress
  env : Env

def stats0 : Stats := ⟨0, 0, 0, 0⟩

/-- Shallow embedding of `main()`: returns (interpreter exit status, final
    stats, event trace).  Every branch of the Python `main` ends in a plain
    `return` and the script never calls `sys.exit`, so the process exit
    status is 0 in all of them — including the missing-file and bad-JSON
    branches, which abort before `process_node` runs. -/
def main_run (m : MainEnv) (dryRun : Bool) : Nat × Stats × List Event :=
  if m.rcloneOk = false then (0, stats0, [])
  else
    match m.load with
    | .missing => (0, stats0, [])
    | .badJson => (0, stats0, [])
    | .ok tree =>
      let r := processNode m.env dryRun tree "" ⟨stats0, m.initLedger⟩
      (0, r.1.stats, r.2)

/-! # Theorems -/

/-! ## Name sanitization lemmas (C10) -/

theorem replaceInvalid_not_invalid {c : Char} {l : List Char}
    (h : c ∈ replaceInvalid l) : c ∉ invalidChars := by
  unfold replaceInvalid at h
  rw [List.mem_map] at h
  obtain ⟨a, -, rfl⟩ := h
  by_cases ha : a ∈ invalidChars
  · simp only [ha, if_pos]
    decide
  · simp only [ha, if_neg, not_false_eq_true, ite_false]

theorem mem_rstripDotSpace {c : Char} {l : List Char}
    (h : c ∈ rstripDotSpace l) : c ∈ l := by
  unfold rstripDotSpace at h
  rw [List.mem_reverse] at h
  have h2 : c ∈ l.reverse := (List.dropWhile_sublist _).mem h
  rwa [List.mem_reverse] at h2

theorem head?_dropWhile_false {p : Char → Bool} :
    ∀ {l : List Char} {x : Char}, (l.dropWhile p).head? = some x → p x = false := by
  intro l
  induction l with
  | nil => intro x h; simp [List.dropWhile] at h
  | cons a t ih =>
    intro x h
    by_cases hpa : p a
    · rw [List.dropWhile_cons_of_pos hpa] at h
      exact ih h
    · rw [List.dropWhile_cons_of_neg hpa] at h
      simp only [List.head?_cons, Option.some.injEq] at h
      subst h
      simpa using hpa

theorem getLast?_rstripDotSpace {l : List Char} {c : Char}
    (h : (rstripDotSpace l).getLast? = some c) : stripTrail c = false := by
  unfold rstripDotSpace at h
  rw [List.getLast?_reverse] at h
  exact head?_dropWhile_false h

/-- C10: `sanitize_name` always returns a non-empty string with none of the
    Windows-invalid characters, never ending in a space or period, and
    returns the placeholder exactly when the input reduces to the empty
    string after replacement and stripping; the forward slash is kept. -/
theorem sanitize_name_spec (s : String) :
    (sanitize_name s).data ≠ [] ∧
    (∀ c ∈ (sanitize_name s).data, c ∉ invalidChars) ∧
    (∀ c, (sanitize_name s).data.getLast? = some c → c ≠ ' ' ∧ c ≠ '.') ∧
    (rstripDotSpace (replaceInvalid s.data) = [] →
      sanitize_name s = "_unnamed_") ∧
    sanitize_name "a/b" = "a/b" := by
  have hun : ∀ h : rstripDotSpace (replaceInvalid s.data) = [],
      sanitize_name s = "_unnamed_" := fun h => by simp [sanitize_name, h]
  refine ⟨?_, ?_, ?_, fun h => hun h, by decide⟩
  · by_cases h : rstripDotSpace (replaceInvalid s.data) = []
    · rw [hun h]
      decide
    · simp only [sanitize_name, if_neg h]
      exact h
  · intro c hc
    by_cases h : rstripDotSpace (replaceInvalid s.data) = []
    · rw [hun h] at hc
      fin_cases hc <;> decide
    · simp only [sanitize_name, if_neg h] at hc
      exact replaceInvalid_not_invalid (mem_rstripDotSpace hc)
  · intro c hc
    by_cases h : rstripDotSpace (replaceInvalid s.data) = []
    · rw [hun h] at hc
      have h3 : ("_unnamed_" : String).data.getLast? = some '_' := by decide
      rw [h3] at hc
      injection hc with h4
      subst h4
      decide
    · simp only [sanitize_name, if_neg h] at hc
      have h5 := getLast?_rstripDotSpace hc
      unfold stripTrail at h5
      constructor <;> rintro rfl <;> simp at h5

/-- C10 witness. -/
theorem sanitize_name_spec_witness :
    (sanitize_name "ab: c. ").data ≠ [] ∧
    (rstripDotSpace (replaceInvalid (" ." : String).data) = [] →
      sanitize_name " ." = "_unnamed_") := by
  exact ⟨(sanitize_name_spec "ab: c. ").1, (sanitize_name_spec " .").2.2.2.1⟩

/-! ## Chunk partition lemmas (C2) -/

theorem chunk_cover_mem {T n k : Nat} (i : Nat) (hi : i < n)
    (h : inPart T n i k) : k < T := by
  obtain ⟨-, h2⟩ := h
  by_cases hlt : i < n - 1
  · rw [part_end, if_pos hlt] at h2
    have hmul : (i + 1) * part_size T n ≤ T := by
      calc (i + 1) * part_size T n ≤ n * part_size T n :=
            Nat.mul_le_mul_right _ (by omega)
        _ ≤ T := by
            rw [part_size, Nat.mul_comm]
            exact Nat.div_mul_le_self T n
    have h3 : (k : Int) < (((i + 1) * part_size T n : Nat) : Int) := by
      push_cast
      omega
    have h4 : k < (i + 1) * part_size T n := by exact_mod_cast h3
    omega
  · rw [part_end, if_neg hlt] at h2
    omega

theorem chunk_cover_exists {T n k : Nat} (hn : 1 ≤ n) (hk : k < T) :
    ∃ i, i < n ∧ inPart T n i k := by
  by_cases hp0 : part_size T n = 0
  · refine ⟨n - 1, by omega, ?_, ?_⟩
    · rw [part_start, hp0]
      simp
    · rw [part_end, if_neg (by omega : ¬ (n - 1 < n - 1))]
      omega
  · have hp : 0 < part_size T n := Nat.pos_of_ne_zero hp0
    by_cases hq : k / part_size T n < n - 1
    · refine ⟨k / part_size T n, by omega, ?_, ?_⟩
      · rw [part_start]
        have h1 : k / part_size T n * part_size T n ≤ k :=
          Nat.div_mul_le_self k (part_size T n)
        exact_mod_cast h1
      · rw [part_end, if_pos hq]
        have h1 : k < (k / part_size T n + 1) * part_size T n := by
          have ha := Nat.div_add_mod k (part_size T n)
          have hb := Nat.mod_lt k hp
          have hc : (k / part_size T n + 1) * part_size T n =
              part_size T n * (k / part_size T n) + part_size T n := by ring
          omega
        have h2 : (k : Int) <
            (((k / part_size T n : Nat) : Int) + 1) * ((part_size T n : Nat) : Int) := by
          exact_mod_cast h1
        omega
    · refine ⟨n - 1, by omega, ?_, ?_⟩
      · rw [part_start]
        have h1 : (n - 1) * part_size T n ≤ k / part_size T n * part_size T n :=
          Nat.mul_le_mul_right _ (by omega)
        have h2 : k / part_size T n * part_size T n ≤ k :=
          Nat.div_mul_le_self k (part_size T n)
        have h3 : (n - 1) * part_size T n ≤ k := le_trans h1 h2
        exact_mod_cast h3
      · rw [part_end, if_neg (by omega : ¬ (n - 1 < n - 1))]
        omega

theorem chunk_disjoint_lt {T n i j k : Nat} (hj : j < n) (hij : i < j)
    (h1 : inPart T n i k) (h2 : inPart T n j k) : False := by
  obtain ⟨-, h1e⟩ := h1
  obtain ⟨h2s, -⟩ := h2
  have hi : i < n - 1 := by omega
  rw [part_end, if_pos hi] at h1e
  rw [part_start] at h2s
  have hmul : (i + 1) * part_size T n ≤ j * part_size T n :=
    Nat.mul_le_mul_right _ (by omega)
  have hcast : (((i + 1) * part_size T n : Nat) : Int) ≤
      ((j * part_size T n : Nat) : Int) := by exact_mod_cast hmul
  push_cast at hcast
  omega

/-- C2: for any `totalSize` and `partCount ≥ 1` the computed closed byte
    ranges cover exactly `[0, totalSize-1]` — a natural `k` lies in some
    part iff `k < totalSize` — and distinct parts never share a byte. -/
theorem chunk_partition (T n : Nat) (hn : 1 ≤ n) :
    (∀ k : Nat, (∃ i, i < n ∧ inPart T n i k) ↔ k < T) ∧
    (∀ i j k : Nat, i < n → j < n → i ≠ j →
      inPart T n i k → inPart T n j k → False) := by
  constructor
  · intro k
    constructor
    · rintro ⟨i, hi, h⟩
      exact chunk_cover_mem i hi h
    · intro hk
      exact chunk_cover_exists hn hk
  · intro i j k hi hj hij h1 h2
    rcases Nat.lt_or_ge i j with h | h
    · exact chunk_disjoint_lt hj h h1 h2
    · exact chunk_disjoint_lt hi (by omega) h2 h1

/-- C2 witness. -/
theorem chunk_partition_witness :
    ((∃ i, i < 3 ∧ inPart 10 3 i 7) ↔ 7 < 10) ∧
    (inPart 10 3 0 2 → inPart 10 3 2 2 → False) :=
  ⟨(chunk_partition 10 3 (by decide)).1 7,
   fun h1 h2 =>
     (chunk_partition 10 3 (by decide)).2 0 2 2 (by decide) (by decide)
       (by decide) h1 h2⟩

/-! ## Ledger persistence (C3) -/

/-- C3: `save_progress` serializes the full ledger to the sibling temporary
    file and then atomically replaces the ledger file.  Executing the whole
    sequence makes the new serialized ledger visible; a crash after any
    proper prefix (in particular between the temp write and the replace)
    leaves the previous ledger file contents untouched; at no point is
    anything but the old or the new complete ledger visible at the ledger
    path. -/
theorem save_progress_atomic (fs : FS) (p : Progress) :
    (runOps fs (save_progress_ops p) PROGRESS_FILE =
      some (serialize_ledger p)) ∧
    (∀ k, k < (save_progress_ops p).length →
      runOps fs ((save_progress_ops p).take k) PROGRESS_FILE =
        fs PROGRESS_FILE) ∧
    (∀ k, runOps fs ((save_progress_ops p).take k) PROGRESS_FILE =
        fs PROGRESS_FILE ∨
      runOps fs ((save_progress_ops p).take k) PROGRESS_FILE =
        some (serialize_ledger p)) := by
  refine ⟨rfl, ?_, ?_⟩
  · intro k hk
    simp only [save_progress_ops, List.length_cons, List.length_nil] at hk
    interval_cases k
    · rfl
    · rfl
  · intro k
    match k with
    | 0 => exact Or.inl rfl
    | 1 => exact Or.inl rfl
    | (j + 2) =>
      have ht : (save_progress_ops p).take (j + 2) = save_progress_ops p := by
        simp [save_progress_ops]
      have h1 : runOps fs (save_progress_ops p) PROGRESS_FILE =
          some (serialize_ledger p) := rfl
      exact Or.inr (by rw [ht]; exact h1)

/-- C3 witness. -/
theorem save_progress_atomic_witness :
    runOps (fun _ => none) ((save_progress_ops ⟨∅, ∅, ∅⟩).take 1) PROGRESS_FILE =
      (fun _ => (none : Option LedgerData)) PROGRESS_FILE :=
  (save_progress_atomic (fun _ => none) ⟨∅, ∅, ∅⟩).2.1 1 (by decide)

/-! ## Chunked fetcher (C4, C5) -/

theorem download_ranges_eq (env : FetchEnv) (n : Nat)
    (h0 : ¬ (env.probe.getD 0 < 10000)) :
    (download_file_multithread env n).ranges =
      (List.range n).map (fun i =>
        (part_start (env.probe.getD 0) n i, part_end (env.probe.getD 0) n i)) := by
  simp only [download_file_multithread, if_neg h0]
  split
  · split <;> rfl
  · rfl

theorem download_result_ne_redirect (env : FetchEnv) (n : Nat)
    (h0 : ¬ (env.probe.getD 0 < 10000)) :
    (download_file_multithread env n).result ≠ .redirect := by
  simp only [download_file_multithread, if_neg h0]
  split
  · split <;> simp
  · simp

/-- C4: a metadata probe reporting under 10 KB (a failed or size-less probe
    counting as `totalSize = 0`) returns the redirect-page outcome with no
    byte-range requests and no write to the destination; a probe of at least
    10 KB proceeds to the chunked range download over all parts. -/
theorem redirect_detection (env : FetchEnv) (n : Nat) :
    (env.probe.getD 0 < 10000 →
      download_file_multithread env n =
        { result := .redirect, ranges := [],
          fileExistsAfter := destExists0 env }) ∧
    (10000 ≤ env.probe.getD 0 → 1 ≤ n →
      (download_file_multithread env n).ranges =
        (List.range n).map (fun i =>
          (part_start (env.probe.getD 0) n i,
           part_end (env.probe.getD 0) n i)) ∧
      (download_file_multithread env n).ranges ≠ [] ∧
      (download_file_multithread env n).result ≠ .redirect) := by
  constructor
  · intro h
    simp [download_file_multithread, h]
  · intro h hn
    have h0 : ¬ (env.probe.getD 0 < 10000) := by omega
    refine ⟨download_ranges_eq env n h0, ?_, download_result_ne_redirect env n h0⟩
    rw [download_ranges_eq env n h0]
    simp only [ne_eq, List.map_eq_nil_iff, List.range_eq_nil]
    omega

/-- C4 witness: a 5 000-byte probe is classified as a redirect page; a
    50 000 000-byte probe proceeds to the chunked download. -/
theorem redirect_detection_witness :
    (download_file_multithread ⟨some 5000, none, fun _ => true, 0⟩ 64).result =
      .redirect ∧
    (download_file_multithread
        ⟨some 50000000, none, fun _ => true, 50000000⟩ 64).ranges ≠ [] := by
  constructor
  · rw [(redirect_detection ⟨some 5000, none, fun _ => true, 0⟩ 64).1 (by decide)]
  · exact ((redirect_detection ⟨some 50000000, none, fun _ => true, 50000000⟩
      64).2 (by decide) (by decide)).2.1

/-- C5 counterexample: all 64 parts succeed, the probe reported 1 000 000
    bytes but the merged file is 800 000 bytes (80%).  The fetch is rejected
    as a failure, but the undersized destination file still exists when the
    function returns — it is not deleted, contradicting the claim that the
    undersized local artifact is deleted. -/
theorem integrity_undersized_not_deleted :
    (download_file_multithread
        ⟨some 1000000, none, fun _ => true, 800000⟩ 64).result = .failure ∧
    (download_file_multithread
        ⟨some 1000000, none, fun _ => true, 800000⟩ 64).fileExistsAfter = true := by
  constructor <;> rfl

/-- C5 amended: when the merged size is below `totalSize * 0.95` the fetch
    returns failure and the undersized merged file is left on disk (deleted
    only by a later call if under 10 KB); a merged size of at least 95% of
    `totalSize` is accepted. -/
theorem integrity_check (env : FetchEnv) (n : Nat)
    (hT : 10000 ≤ env.probe.getD 0)
    (hok : (List.range n).all env.partOk = true) :
    (env.mergedSize * 20 < env.probe.getD 0 * 19 →
      (download_file_multithread env n).result = .failure ∧
      (download_file_multithread env n).fileExistsAfter = true) ∧
    (env.probe.getD 0 * 19 ≤ env.mergedSize * 20 →
      (download_file_multithread env n).result = .success ∧
      (download_file_multithread env n).fileExistsAfter = true) := by
  have h0 : ¬ (env.probe.getD 0 < 10000) := by omega
  constructor
  · intro hm
    simp [download_file_multithread, if_neg h0, hok, hm]
  · intro hm
    have hm2 : ¬ (env.mergedSize * 20 < env.probe.getD 0 * 19) := by omega
    simp [download_file_multithread, if_neg h0, hok, hm2]

/-- C5 witness: a merged output at 96% of a 1 000 000-byte total is
    accepted. -/
theorem integrity_check_witness :
    (download_file_multithread
        ⟨some 1000000, none, fun _ => true, 960000⟩ 64).result = .success ∧
    (download_file_multithread
        ⟨some 1000000, none, fun _ => true, 960000⟩ 64).fileExistsAfter = true :=
  (integrity_check ⟨some 1000000, none, fun _ => true, 960000⟩ 64 (by decide)
    (by decide)).2 (by decide)

/-! ## Exit status (C8) -/

/-- C8 counterexample: with rclone available and the input tree file
    missing (and likewise unparsable), `main` returns normally — the
    interpreter exit status is 0, not non-zero as the claim states. -/
theorem exit_code_missing_input :
    (main_run ⟨true, .missing, ⟨∅, ∅, ∅⟩,
        ⟨fun _ => true, fun _ _ => false, fun _ _ => none,
         fun _ _ => false, fun _ _ => false⟩⟩ false).1 = 0 ∧
    (main_run ⟨true, .badJson, ⟨∅, ∅, ∅⟩,
        ⟨fun _ => true, fun _ _ => false, fun _ _ => none,
         fun _ _ => false, fun _ _ => false⟩⟩ false).2.2 = [] := by
  constructor <;> rfl

/-- C8 amended: on a missing or unparsable input tree the run aborts before
    any transfer begins (no events, zero stats), but the process exit
    status is 0 — as it is on every run, since `main` always returns
    normally. -/
theorem exit_code_spec (m : MainEnv) (d : Bool) :
    ((m.load = .missing ∨ m.load = .badJson) →
      main_run m d = (0, stats0, [])) ∧
    (main_run m d).1 = 0 := by
  constructor
  · intro h
    cases hb : m.rcloneOk <;> rcases h with h | h <;> simp [main_run, hb, h]
  · cases hb : m.rcloneOk
    · simp [main_run, hb]
    · cases hl : m.load <;> simp [main_run, hb, hl]

/-- C8 amended witness. -/
theorem exit_code_spec_witness :
    main_run ⟨true, .badJson, ⟨∅, ∅, ∅⟩,
      ⟨fun _ => false, fun _ _ => false, fun _ _ => none,
       fun _ _ => false, fun _ _ => false⟩⟩ true = (0, stats0, []) :=
  (exit_code_spec _ true).1 (Or.inr rfl)

/-! ## Orchestrator state lemmas -/

@[simp] theorem addTotal_prog (st : St) : (addTotal st).prog = st.prog := rfl

@[simp] theorem addSkipDone_prog (st : St) : (addSkipDone st).prog = st.prog := rfl

@[simp] theorem addDone_prog (st : St) : (addDone st).prog = st.prog := rfl

@[simp] theorem addFailed_prog (st : St) : (addFailed st).prog = st.prog := rfl

@[simp] theorem recordFolder_stats (p : String) (st : St) :
    (recordFolder p st).stats = st.stats := rfl

@[simp] theorem recordDone_stats (i : String) (st : St) :
    (recordDone i st).stats = st.stats := rfl

@[simp] theorem recordDoneClearFailed_stats (i : String) (st : St) :
    (recordDoneClearFailed i st).stats = st.stats := rfl

@[simp] theorem recordFailed_stats (i : String) (st : St) :
    (recordFailed i st).stats = st.stats := rfl

@[simp] theorem recordFolder_created (p : String) (st : St) :
    (recordFolder p st).prog.created_folders =
      insert p st.prog.created_folders := rfl

@[simp] theorem recordFolder_done (p : String) (st : St) :
    (recordFolder p st).prog.done_ids = st.prog.done_ids := rfl

@[simp] theorem recordFolder_failed (p : String) (st : St) :
    (recordFolder p st).prog.failed_ids = st.prog.failed_ids := rfl

@[simp] theorem recordDone_prog (i : String) (st : St) :
    (recordDone i st).prog =
      ⟨insert i st.prog.done_ids, st.prog.failed_ids,
       st.prog.created_folders⟩ := rfl

@[simp] theorem recordDoneClearFailed_prog (i : String) (st : St) :
    (recordDoneClearFailed i st).prog =
      ⟨insert i st.prog.done_ids, st.prog.failed_ids.erase i,
       st.prog.created_folders⟩ := rfl

@[simp] theorem recordFailed_prog (i : String) (st : St) :
    (recordFailed i st).prog =
      ⟨st.prog.done_ids, insert i st.prog.failed_ids,
       st.prog.created_folders⟩ := rfl

@[simp] theorem addTotal_stats (st : St) :
    (addTotal st).stats =
      ⟨st.stats.total_files + 1, st.stats.done, st.stats.skipped,
       st.stats.failed⟩ := rfl

@[simp] theorem addSkipDone_stats (st : St) :
    (addSkipDone st).stats =
      ⟨st.stats.total_files, st.stats.done + 1, st.stats.skipped + 1,
       st.stats.failed⟩ := rfl

@[simp] theorem addDone_stats (st : St) :
    (addDone st).stats =
      ⟨st.stats.total_files, st.stats.done + 1, st.stats.skipped,
       st.stats.failed⟩ := rfl

@[simp] theorem addFailed_stats (st : St) :
    (addFailed st).stats =
      ⟨st.stats.total_files, st.stats.done, st.stats.skipped,
       st.stats.failed + 1⟩ := rfl

/-! ### Branch equations for the file-node stages -/

theorem finishUpload_eq_ok (env : Env) (d : Bool) (id p parent : String)
    (st1 : St) (evs : List Event)
    (hup : (d || env.uploadOk p parent) = true) :
    finishUpload env d id p parent st1 evs =
      (if d = false ∧ id ≠ "" then recordDoneClearFailed id (addDone st1)
       else addDone st1,
       evs ++ (if d then [] else [Event.copyUp p parent]) ++
         [Event.outcome .completed]) := by
  simp [finishUpload, hup]

theorem finishUpload_eq_fail (env : Env) (d : Bool) (id p parent : String)
    (st1 : St) (evs : List Event)
    (hup : (d || env.uploadOk p parent) = false) :
    finishUpload env d id p parent st1 evs =
      (if d = false ∧ id ≠ "" then recordFailed id (addFailed st1)
       else addFailed st1,
       evs ++ (if d then [] else [Event.copyUp p parent]) ++
         [Event.outcome .failed]) := by
  simp [finishUpload, hup]

theorem failDownload_eq (d : Bool) (id : String) (st1 : St)
    (evs : List Event) :
    failDownload d id st1 evs =
      (if d = false ∧ id ≠ "" then recordFailed id (addFailed st1)
       else addFailed st1,
       evs ++ [Event.outcome .failed]) := rfl

theorem transferFile_eq_video (env : Env) (d : Bool)
    (name mime id link parent : String) (st1 : St) (lsfEvs : List Event)
    (hm : mime = "video/mp4") :
    transferFile env d name mime id link parent st1 lsfEvs =
      (match (if d then some (TEMP_DIR ++ "/" ++ sanitize_name name)
              else env.videoResult link (sanitize_name name)) with
       | some p => finishUpload env d id p parent st1
           (lsfEvs ++ (if d then [] else [Event.fetchVideo link]))
       | none => failDownload d id st1
           (lsfEvs ++ (if d then [] else [Event.fetchVideo link]))) := by
  simp [transferFile, hm]

theorem transferFile_eq_direct_ok (env : Env) (d : Bool)
    (name mime id link parent : String) (st1 : St) (lsfEvs : List Event)
    (hm : mime ≠ "video/mp4")
    (hd : (d || env.directOk id (sanitize_name name)) = true) :
    transferFile env d name mime id link parent st1 lsfEvs =
      finishUpload env d id (TEMP_DIR ++ "/" ++ sanitize_name name) parent st1
        (lsfEvs ++ (if d then [] else [Event.fetchDirect id])) := by
  simp [transferFile, hm, hd]

theorem transferFile_eq_direct_fail (env : Env) (d : Bool)
    (name mime id link parent : String) (st1 : St) (lsfEvs : List Event)
    (hm : mime ≠ "video/mp4")
    (hd : (d || env.directOk id (sanitize_name name)) = false) :
    transferFile env d name mime id link parent st1 lsfEvs =
      failDownload d id st1
        (lsfEvs ++ (if d then [] else [Event.fetchDirect id])) := by
  simp [transferFile, hm, hd]

theorem processLeaf_eq_other (env : Env) (d : Bool)
    (name ntype mime id link parent : String) (st : St)
    (hfile : ntype ≠ "file") :
    processLeaf env d name ntype mime id link parent st = (st, []) := by
  simp [processLeaf, hfile]

theorem processLeaf_eq_skip1 (env : Env) (d : Bool)
    (name ntype mime id link parent : String) (st : St)
    (hfile : ntype = "file")
    (hc1 : d = false ∧ id ≠ "" ∧ id ∈ st.prog.done_ids) :
    processLeaf env d name ntype mime id link parent st =
      (addSkipDone (addTotal st), [Event.outcome .skippedAlreadyDone]) := by
  obtain ⟨h1, h2, h3⟩ := hc1
  simp [processLeaf, hfile, h1, h2, h3]

theorem processLeaf_eq_skip2 (env : Env)
    (name ntype mime id link parent : String) (st : St)
    (hfile : ntype = "file")
    (hc1 : id = "" ∨ id ∉ st.prog.done_ids)
    (h2 : env.existsRemote parent (sanitize_name name) = true) :
    processLeaf env false name ntype mime id link parent st =
      (if id ≠ "" then recordDone id (addSkipDone (addTotal st))
       else addSkipDone (addTotal st),
       [Event.listRemote parent, Event.outcome .skippedAlreadyOnRemote]) := by
  rcases hc1 with h | h
  · subst h
    simp [processLeaf, hfile, h2]
  · simp [processLeaf, hfile, h, h2]

theorem processLeaf_eq_transfer (env : Env) (d : Bool)
    (name ntype mime id link parent : String) (st : St)
    (hfile : ntype = "file")
    (hc1 : d = true ∨ id = "" ∨ id ∉ st.prog.done_ids)
    (hc2 : d = true ∨ env.existsRemote parent (sanitize_name name) = false) :
    processLeaf env d name ntype mime id link parent st =
      transferFile env d name mime id link parent (addTotal st)
        (if d then [] else [Event.listRemote parent]) := by
  rcases hc2 with h2 | h2
  · subst h2
    simp [processLeaf, hfile]
  · rcases hc1 with h1 | h1 | h1
    · subst h1
      simp [processLeaf, hfile]
    · subst h1
      simp [processLeaf, hfile, h2]
    · simp [processLeaf, hfile, h1, h2]

/-! ### Ledger effect of the file-node stages -/

/-- `finishUpload` leaves the ledger alone (dry-run or empty id) or — live,
    non-empty id — performs completed or failure bookkeeping. -/
theorem finishUpload_prog (env : Env) (d : Bool) (id p parent : String)
    (st1 : St) (evs : List Event) :
    (finishUpload env d id p parent st1 evs).1.prog = st1.prog ∨
    (d = false ∧ id ≠ "" ∧
      ((finishUpload env d id p parent st1 evs).1.prog =
        ⟨insert id st1.prog.done_ids, st1.prog.failed_ids.erase id,
         st1.prog.created_folders⟩ ∨
       (finishUpload env d id p parent st1 evs).1.prog =
        ⟨st1.prog.done_ids, insert id st1.prog.failed_ids,
         st1.prog.created_folders⟩)) := by
  cases hup : (d || env.uploadOk p parent)
  · rw [finishUpload_eq_fail env d id p parent st1 evs hup]
    by_cases hl : d = false ∧ id ≠ ""
    · exact Or.inr ⟨hl.1, hl.2, Or.inr (by simp [hl])⟩
    · exact Or.inl (by simp [hl])
  · rw [finishUpload_eq_ok env d id p parent st1 evs hup]
    by_cases hl : d = false ∧ id ≠ ""
    · exact Or.inr ⟨hl.1, hl.2, Or.inl (by simp [hl])⟩
    · exact Or.inl (by simp [hl])

/-- `failDownload` leaves the ledger alone or records the failure. -/
theorem failDownload_prog (d : Bool) (id : String) (st1 : St)
    (evs : List Event) :
    (failDownload d id st1 evs).1.prog = st1.prog ∨
    (d = false ∧ id ≠ "" ∧
      (failDownload d id st1 evs).1.prog =
        ⟨st1.prog.done_ids, insert id st1.prog.failed_ids,
         st1.prog.created_folders⟩) := by
  rw [failDownload_eq]
  by_cases hl : d = false ∧ id ≠ ""
  · exact Or.inr ⟨hl.1, hl.2, by simp [hl]⟩
  · exact Or.inl (by simp [hl])

/-- Ledger effect of `transferFile`. -/
theorem transferFile_prog (env : Env) (d : Bool)
    (name mime id link parent : String) (st1 : St) (lsfEvs : List Event) :
    (transferFile env d name mime id link parent st1 lsfEvs).1.prog =
      st1.prog ∨
    (d = false ∧ id ≠ "" ∧
      ((transferFile env d name mime id link parent st1 lsfEvs).1.prog =
        ⟨insert id st1.prog.done_ids, st1.prog.failed_ids.erase id,
         st1.prog.created_folders⟩ ∨
       (transferFile env d name mime id link parent st1 lsfEvs).1.prog =
        ⟨st1.prog.done_ids, insert id st1.prog.failed_ids,
         st1.prog.created_folders⟩)) := by
  by_cases hm : mime = "video/mp4"
  · rcases hv : (if d then some (TEMP_DIR ++ "/" ++ sanitize_name name)
        else env.videoResult link (sanitize_name name)) with _ | p
    · simp only [transferFile_eq_video env d name mime id link parent st1
        lsfEvs hm, hv]
      rcases failDownload_prog d id st1
          (lsfEvs ++ (if d then [] else [Event.fetchVideo link])) with
        h | ⟨h1, h2, h3⟩
      · exact Or.inl h
      · exact Or.inr ⟨h1, h2, Or.inr h3⟩
    · simp only [transferFile_eq_video env d name mime id link parent st1
        lsfEvs hm, hv]
      exact finishUpload_prog env d id p parent st1
        (lsfEvs ++ (if d then [] else [Event.fetchVideo link]))
  · cases hd : (d || env.directOk id (sanitize_name name))
    · rw [transferFile_eq_direct_fail env d name mime id link parent st1
        lsfEvs hm hd]
      rcases failDownload_prog d id st1
          (lsfEvs ++ (if d then [] else [Event.fetchDirect id])) with
        h | ⟨h1, h2, h3⟩
      · exact Or.inl h
      · exact Or.inr ⟨h1, h2, Or.inr h3⟩
    · rw [transferFile_eq_direct_ok env d name mime id link parent st1
        lsfEvs hm hd]
      exact finishUpload_prog env d id (TEMP_DIR ++ "/" ++ sanitize_name name)
        parent st1 (lsfEvs ++ (if d then [] else [Event.fetchDirect id]))

/-- Complete case description of how one non-folder node changes the ledger:
    either untouched, or the node id is non-empty and not yet done and it is
    (remote-exists skip) inserted into `done_ids` with `failed_ids`
    unchanged, or (successful transfer) inserted into `done_ids` and erased
    from `failed_ids`, or (failed transfer) inserted into `failed_ids`. -/
theorem processLeaf_prog_spec (env : Env) (d : Bool)
    (name ntype mime id link parent : String) (st : St) :
    (processLeaf env d name ntype mime id link parent st).1.prog = st.prog ∨
    (id ≠ "" ∧ id ∉ st.prog.done_ids ∧
      (((processLeaf env d name ntype mime id link parent st).1.prog =
          ⟨insert id st.prog.done_ids, st.prog.failed_ids,
           st.prog.created_folders⟩ ∧
        env.existsRemote parent (sanitize_name name) = true) ∨
       (processLeaf env d name ntype mime id link parent st).1.prog =
          ⟨insert id st.prog.done_ids, st.prog.failed_ids.erase id,
           st.prog.created_folders⟩ ∨
       (processLeaf env d name ntype mime id link parent st).1.prog =
          ⟨st.prog.done_ids, insert id st.prog.failed_ids,
           st.prog.created_folders⟩)) := by
  by_cases hfile : ntype = "file"
  · rcases Bool.eq_false_or_eq_true d with hd | hd
    · subst hd
      rw [processLeaf_eq_transfer env true name ntype mime id link parent st
        hfile (Or.inl rfl) (Or.inl rfl)]
      rcases transferFile_prog env true name mime id link parent (addTotal st)
          (if true then [] else [Event.listRemote parent]) with
        h | ⟨h1, h2, h3⟩
      · exact Or.inl (by simpa using h)
      · cases h1
    · subst hd
      by_cases hid : id = ""
      · by_cases hex : env.existsRemote parent (sanitize_name name) = true
        · rw [processLeaf_eq_skip2 env name ntype mime id link parent st
            hfile (Or.inl hid) hex]
          exact Or.inl (by simp [hid])
        · rw [processLeaf_eq_transfer env false name ntype mime id link parent
            st hfile (Or.inr (Or.inl hid)) (Or.inr (by simpa using hex))]
          rcases transferFile_prog env false name mime id link parent
              (addTotal st) (if false then [] else [Event.listRemote parent])
            with h | ⟨h1, h2, h3⟩
          · exact Or.inl (by simpa using h)
          · exact absurd hid h2
      · by_cases hmem : id ∈ st.prog.done_ids
        · rw [processLeaf_eq_skip1 env false name ntype mime id link parent st
            hfile ⟨rfl, hid, hmem⟩]
          exact Or.inl (by simp)
        · by_cases hex : env.existsRemote parent (sanitize_name name) = true
          · rw [processLeaf_eq_skip2 env name ntype mime id link parent st
              hfile (Or.inr hmem) hex]
            refine Or.inr ⟨hid, hmem, Or.inl ⟨by simp [hid], hex⟩⟩
          · rw [processLeaf_eq_transfer env false name ntype mime id link
              parent st hfile (Or.inr (Or.inr hmem))
              (Or.inr (by simpa using hex))]
            rcases transferFile_prog env false name mime id link parent
                (addTotal st) (if false then [] else [Event.listRemote parent])
              with h | ⟨h1, h2, h3⟩
            · exact Or.inl (by simpa using h)
            · refine Or.inr ⟨hid, hmem, ?_⟩
              rcases h3 with h3 | h3
              · exact Or.inr (Or.inl (by simpa using h3))
              · exact Or.inr (Or.inr (by simpa using h3))
  · rw [processLeaf_eq_other env d name ntype mime id link parent st hfile]
    exact Or.inl rfl

/-- A non-folder node never touches `created_folders`. -/
theorem processLeaf_created (env : Env) (d : Bool)
    (name ntype mime id link parent : String) (st : St) :
    (processLeaf env d name ntype mime id link parent st).1.prog.created_folders =
      st.prog.created_folders := by
  rcases processLeaf_prog_spec env d name ntype mime id link parent st with
    h | ⟨-, -, ⟨h, -⟩ | h | h⟩ <;> rw [h]

/-! ### No folder creation from file nodes -/

theorem finishUpload_no_mkdir (env : Env) (d : Bool) (id p parent : String)
    (st1 : St) (evs : List Event) (q : String)
    (h : Event.mkdir q ∉ evs) :
    Event.mkdir q ∉ (finishUpload env d id p parent st1 evs).2 := by
  cases hup : (d || env.uploadOk p parent)
  · rw [finishUpload_eq_fail env d id p parent st1 evs hup]
    cases d <;> simp_all
  · rw [finishUpload_eq_ok env d id p parent st1 evs hup]
    cases d <;> simp_all

theorem failDownload_no_mkdir (d : Bool) (id : String) (st1 : St)
    (evs : List Event) (q : String) (h : Event.mkdir q ∉ evs) :
    Event.mkdir q ∉ (failDownload d id st1 evs).2 := by
  rw [failDownload_eq]
  simp_all

theorem transferFile_no_mkdir (env : Env) (d : Bool)
    (name mime id link parent : String) (st1 : St) (lsfEvs : List Event)
    (q : String) (h : Event.mkdir q ∉ lsfEvs) :
    Event.mkdir q ∉ (transferFile env d name mime id link parent st1 lsfEvs).2 := by
  by_cases hm : mime = "video/mp4"
  · rcases hv : (if d then some (TEMP_DIR ++ "/" ++ sanitize_name name)
        else env.videoResult link (sanitize_name name)) with _ | p
    · simp only [transferFile_eq_video env d name mime id link parent st1
        lsfEvs hm, hv]
      apply failDownload_no_mkdir
      cases d <;> simp_all
    · simp only [transferFile_eq_video env d name mime id link parent st1
        lsfEvs hm, hv]
      apply finishUpload_no_mkdir
      cases d <;> simp_all
  · cases hd : (d || env.directOk id (sanitize_name name))
    · rw [transferFile_eq_direct_fail env d name mime id link parent st1
        lsfEvs hm hd]
      apply failDownload_no_mkdir
      cases d <;> simp_all
    · rw [transferFile_eq_direct_ok env d name mime id link parent st1
        lsfEvs hm hd]
      apply finishUpload_no_mkdir
      cases d <;> simp_all

/-- A non-folder node never invokes mkdir. -/
theorem processLeaf_no_mkdir (env : Env) (d : Bool)
    (name ntype mime id link parent : String) (st : St) (q : String) :
    Event.mkdir q ∉ (processLeaf env d name ntype mime id link parent st).2 := by
  by_cases hfile : ntype = "file"
  · rcases Bool.eq_false_or_eq_true d with hd | hd
    · subst hd
      rw [processLeaf_eq_transfer env true name ntype mime id link parent st
        hfile (Or.inl rfl) (Or.inl rfl)]
      apply transferFile_no_mkdir
      simp
    · subst hd
      by_cases hc1 : id ≠ "" ∧ id ∈ st.prog.done_ids
      · rw [processLeaf_eq_skip1 env false name ntype mime id link parent st
          hfile ⟨rfl, hc1.1, hc1.2⟩]
        simp
      · have hc1a : id = "" ∨ id ∉ st.prog.done_ids := by tauto
        by_cases hex : env.existsRemote parent (sanitize_name name) = true
        · rw [processLeaf_eq_skip2 env name ntype mime id link parent st
            hfile hc1a hex]
          simp
        · rw [processLeaf_eq_transfer env false name ntype mime id link parent
            st hfile (Or.inr hc1a) (Or.inr (by simpa using hex))]
          apply transferFile_no_mkdir
          simp
  · rw [processLeaf_eq_other env d name ntype mime id link parent st hfile]
    simp

/-! ### Stats accounting of the file-node stages -/

theorem finishUpload_stats (env : Env) (d : Bool) (id p parent : String)
    (st1 : St) (evs : List Event) :
    (finishUpload env d id p parent st1 evs).1.stats.total_files =
      st1.stats.total_files ∧
    (finishUpload env d id p parent st1 evs).1.stats.skipped =
      st1.stats.skipped ∧
    st1.stats.done ≤ (finishUpload env d id p parent st1 evs).1.stats.done ∧
    (finishUpload env d id p parent st1 evs).1.stats.done +
        (finishUpload env d id p parent st1 evs).1.stats.failed =
      st1.stats.done + st1.stats.failed + 1 ∧
    (finishUpload env d id p parent st1 evs).2.countP isOutcome =
      evs.countP isOutcome + 1 := by
  cases hup : (d || env.uploadOk p parent)
  · rw [finishUpload_eq_fail env d id p parent st1 evs hup]
    cases d
    · by_cases hid : id = "" <;>
        refine ⟨?_, ?_, ?_, ?_, ?_⟩ <;>
          simp [hid, isOutcome, List.countP_append, List.countP_cons] <;>
            omega
    · refine ⟨?_, ?_, ?_, ?_, ?_⟩ <;>
        simp [isOutcome, List.countP_append, List.countP_cons] <;> omega
  · rw [finishUpload_eq_ok env d id p parent st1 evs hup]
    cases d
    · by_cases hid : id = "" <;>
        refine ⟨?_, ?_, ?_, ?_, ?_⟩ <;>
          simp [hid, isOutcome, List.countP_append, List.countP_cons] <;>
            omega
    · refine ⟨?_, ?_, ?_, ?_, ?_⟩ <;>
        simp [isOutcome, List.countP_append, List.countP_cons] <;> omega

theorem failDownload_stats (d : Bool) (id : String) (st1 : St)
    (evs : List Event) :
    (failDownload d id st1 evs).1.stats.total_files =
      st1.stats.total_files ∧
    (failDownload d id st1 evs).1.stats.skipped = st1.stats.skipped ∧
    st1.stats.done ≤ (failDownload d id st1 evs).1.stats.done ∧
    (failDownload d id st1 evs).1.stats.done +
        (failDownload d id st1 evs).1.stats.failed =
      st1.stats.done + st1.stats.failed + 1 ∧
    (failDownload d id st1 evs).2.countP isOutcome =
      evs.countP isOutcome + 1 := by
  rw [failDownload_eq]
  cases d
  · by_cases hid : id = "" <;>
      refine ⟨?_, ?_, ?_, ?_, ?_⟩ <;>
        simp [hid, isOutcome, List.countP_append, List.countP_cons] <;> omega
  · refine ⟨?_, ?_, ?_, ?_, ?_⟩ <;>
      simp [isOutcome, List.countP_append, List.countP_cons] <;> omega

theorem transferFile_stats (env : Env) (d : Bool)
    (name mime id link parent : String) (st1 : St) (lsfEvs : List Event) :
    (transferFile env d name mime id link parent st1 lsfEvs).1.stats.total_files =
      st1.stats.total_files ∧
    (transferFile env d name mime id link parent st1 lsfEvs).1.stats.skipped =
      st1.stats.skipped ∧
    st1.stats.done ≤
      (transferFile env d name mime id link parent st1 lsfEvs).1.stats.done ∧
    (transferFile env d name mime id link parent st1 lsfEvs).1.stats.done +
        (transferFile env d name mime id link parent st1 lsfEvs).1.stats.failed =
      st1.stats.done + st1.stats.failed + 1 ∧
    (transferFile env d name mime id link parent st1 lsfEvs).2.countP isOutcome =
      lsfEvs.countP isOutcome + 1 := by
  have hcnt : ∀ e : Event,
      (lsfEvs ++ (if d then [] else [e])).countP isOutcome =
        lsfEvs.countP isOutcome + (if d then [] else [e]).countP isOutcome := by
    intro e
    simp [List.countP_append]
  by_cases hm : mime = "video/mp4"
  · rcases hv : (if d then some (TEMP_DIR ++ "/" ++ sanitize_name name)
        else env.videoResult link (sanitize_name name)) with _ | p
    · simp only [transferFile_eq_video env d name mime id link parent st1
        lsfEvs hm, hv]
      have h := failDownload_stats d id st1
        (lsfEvs ++ (if d then [] else [Event.fetchVideo link]))
      refine ⟨h.1, h.2.1, h.2.2.1, h.2.2.2.1, ?_⟩
      rw [h.2.2.2.2, hcnt]
      cases d <;> simp [isOutcome]
    · simp only [transferFile_eq_video env d name mime id link parent st1
        lsfEvs hm, hv]
      have h := finishUpload_stats env d id p parent st1
        (lsfEvs ++ (if d then [] else [Event.fetchVideo link]))
      refine ⟨h.1, h.2.1, h.2.2.1, h.2.2.2.1, ?_⟩
      rw [h.2.2.2.2, hcnt]
      cases d <;> simp [isOutcome]
  · cases hd : (d || env.directOk id (sanitize_name name))
    · rw [transferFile_eq_direct_fail env d name mime id link parent st1
        lsfEvs hm hd]
      have h := failDownload_stats d id st1
        (lsfEvs ++ (if d then [] else [Event.fetchDirect id]))
      refine ⟨h.1, h.2.1, h.2.2.1, h.2.2.2.1, ?_⟩
      rw [h.2.2.2.2, hcnt]
      cases d <;> simp [isOutcome]
    · rw [transferFile_eq_direct_ok env d name mime id link parent st1
        lsfEvs hm hd]
      have h := finishUpload_stats env d id
        (TEMP_DIR ++ "/" ++ sanitize_name name) parent st1
        (lsfEvs ++ (if d then [] else [Event.fetchDirect id]))
      refine ⟨h.1, h.2.1, h.2.2.1, h.2.2.2.1, ?_⟩
      rw [h.2.2.2.2, hcnt]
      cases d <;> simp [isOutcome]

/-- Stats and outcome accounting of one non-folder node: the counted total
    rises by the number of file nodes seen (0 or 1), exactly that many
    outcome events are emitted, `done + failed` rises in step with the
    total minus skips, a skip raises `skipped` and `done` together, and
    `done` never decreases. -/
theorem processLeaf_stats (env : Env) (d : Bool)
    (name ntype mime id link parent : String) (st : St) :
    (processLeaf env d name ntype mime id link parent st).1.stats.total_files +
        st.stats.done + st.stats.failed =
      st.stats.total_files +
        (processLeaf env d name ntype mime id link parent st).1.stats.done +
        (processLeaf env d name ntype mime id link parent st).1.stats.failed ∧
    (processLeaf env d name ntype mime id link parent st).1.stats.skipped +
        st.stats.done ≤
      st.stats.skipped +
        (processLeaf env d name ntype mime id link parent st).1.stats.done ∧
    (processLeaf env d name ntype mime id link parent st).2.countP isOutcome +
        st.stats.total_files =
      (processLeaf env d name ntype mime id link parent st).1.stats.total_files := by
  by_cases hfile : ntype = "file"
  · rcases Bool.eq_false_or_eq_true d with hd | hd
    · subst hd
      rw [processLeaf_eq_transfer env true name ntype mime id link parent st
        hfile (Or.inl rfl) (Or.inl rfl)]
      simp only [reduceIte]
      obtain ⟨h1, h2, h3, h4, h5⟩ := transferFile_stats env true name mime id
        link parent (addTotal st) []
      simp only [addTotal_stats] at h1 h2 h3 h4
      simp only [List.countP_nil] at h5
      refine ⟨by omega, by omega, by omega⟩
    · subst hd
      by_cases hc1 : id ≠ "" ∧ id ∈ st.prog.done_ids
      · rw [processLeaf_eq_skip1 env false name ntype mime id link parent st
          hfile ⟨rfl, hc1.1, hc1.2⟩]
        refine ⟨?_, ?_, ?_⟩ <;> simp [isOutcome] <;> omega
      · have hc1a : id = "" ∨ id ∉ st.prog.done_ids := by tauto
        by_cases hex : env.existsRemote parent (sanitize_name name) = true
        · rw [processLeaf_eq_skip2 env name ntype mime id link parent st
            hfile hc1a hex]
          by_cases hid : id ≠ "" <;>
            refine ⟨?_, ?_, ?_⟩ <;>
              simp [hid, isOutcome] <;> omega
        · rw [processLeaf_eq_transfer env false name ntype mime id link parent
            st hfile (Or.inr hc1a) (Or.inr (by simpa using hex))]
          have hev : (if false then ([] : List Event)
              else [Event.listRemote parent]) = [Event.listRemote parent] := rfl
          rw [hev]
          obtain ⟨h1, h2, h3, h4, h5⟩ := transferFile_stats env false name
            mime id link parent (addTotal st) [Event.listRemote parent]
          simp only [addTotal_stats] at h1 h2 h3 h4
          simp [isOutcome] at h5
          refine ⟨by omega, by omega, by omega⟩
  · rw [processLeaf_eq_other env d name ntype mime id link parent st hfile]
    simp

/-! ### Tree-level invariants (mutual induction over the node tree) -/

mutual

/-- `created_folders` only grows during a run. -/
theorem processNode_created_mono (env : Env) (d : Bool) (n : Node)
    (parent : String) (st : St) :
    st.prog.created_folders ⊆
      (processNode env d n parent st).1.prog.created_folders := by
  cases n with
  | mk name ntype mime id link children =>
    rw [processNode]
    by_cases hf : ntype = "folder"
    · rw [if_pos hf]
      by_cases hskip :
          folderDest parent name ∈ st.prog.created_folders ∧ d = false
      · rw [if_pos hskip]
        exact processChildren_created_mono env d children
          (folderDest parent name) st
      · rw [if_neg hskip]
        refine Finset.Subset.trans ?_ (processChildren_created_mono env d
          children (folderDest parent name)
          (if d then st else recordFolder (folderDest parent name) st))
        cases d
        · simp only [Bool.false_eq_true, if_false, recordFolder_created]
          exact Finset.subset_insert _ _
        · simp
    · rw [if_neg hf]
      rw [processLeaf_created]

theorem processChildren_created_mono (env : Env) (d : Bool) (cs : List Node)
    (path : String) (st : St) :
    st.prog.created_folders ⊆
      (processChildren env d cs path st).1.prog.created_folders := by
  cases cs with
  | nil =>
    rw [processChildren]
  | cons c rest =>
    rw [processChildren]
    exact (processNode_created_mono env d c path st).trans
      (processChildren_created_mono env d rest path
        ((processNode env d c path st).1))

end

mutual

/-- No mkdir is ever invoked for a path already in `created_folders`. -/
theorem processNode_no_mkdir (env : Env) (n : Node) (parent : String)
    (st : St) (q : String) (hq : q ∈ st.prog.created_folders) :
    Event.mkdir q ∉ (processNode env false n parent st).2 := by
  cases n with
  | mk name ntype mime id link children =>
    rw [processNode]
    by_cases hf : ntype = "folder"
    · rw [if_pos hf]
      by_cases hskip :
          folderDest parent name ∈ st.prog.created_folders ∧ false = false
      · rw [if_pos hskip]
        exact processChildren_no_mkdir env children
          (folderDest parent name) st q hq
      · rw [if_neg hskip]
        dsimp only
        intro hmem
        rw [List.mem_append] at hmem
        rcases hmem with hmem | hmem
        · simp only [Bool.false_eq_true, if_false, List.mem_singleton,
            Event.mkdir.injEq] at hmem
          exact hskip ⟨hmem ▸ hq, rfl⟩
        · refine processChildren_no_mkdir env children
            (folderDest parent name)
            (if false then st else recordFolder (folderDest parent name) st)
            q ?_ hmem
          simp only [Bool.false_eq_true, if_false, recordFolder_created]
          exact Finset.mem_insert_of_mem hq
    · rw [if_neg hf]
      exact processLeaf_no_mkdir env false name ntype mime id link parent st q

theorem processChildren_no_mkdir (env : Env) (cs : List Node)
    (path : String) (st : St) (q : String)
    (hq : q ∈ st.prog.created_folders) :
    Event.mkdir q ∉ (processChildren env false cs path st).2 := by
  cases cs with
  | nil =>
    rw [processChildren]
    simp
  | cons c rest =>
    rw [processChildren]
    dsimp only
    intro hmem
    rw [List.mem_append] at hmem
    rcases hmem with hmem | hmem
    · exact processNode_no_mkdir env c path st q hq hmem
    · exact processChildren_no_mkdir env rest path
        ((processNode env false c path st).1) q
        (processNode_created_mono env false c path st hq) hmem

end

mutual

/-- A completed id stays completed, and can only be (or remain) failed if it
    was already failed. -/
theorem processNode_done_stays (env : Env) (d : Bool) (n : Node)
    (parent : String) (st : St) (x : String)
    (hx : x ∈ st.prog.done_ids) :
    x ∈ (processNode env d n parent st).1.prog.done_ids ∧
    (x ∈ (processNode env d n parent st).1.prog.failed_ids →
      x ∈ st.prog.failed_ids) := by
  cases n with
  | mk name ntype mime id link children =>
    rw [processNode]
    by_cases hf : ntype = "folder"
    · rw [if_pos hf]
      by_cases hskip :
          folderDest parent name ∈ st.prog.created_folders ∧ d = false
      · rw [if_pos hskip]
        exact processChildren_done_stays env d children
          (folderDest parent name) st x hx
      · rw [if_neg hskip]
        dsimp only
        have hst : (if d then st else
            recordFolder (folderDest parent name) st).prog.done_ids =
              st.prog.done_ids ∧
            (if d then st else
              recordFolder (folderDest parent name) st).prog.failed_ids =
                st.prog.failed_ids := by
          cases d <;> simp
        obtain ⟨hd1, hd2⟩ := hst
        have h := processChildren_done_stays env d children
          (folderDest parent name)
          (if d then st else recordFolder (folderDest parent name) st) x
          (by rw [hd1]; exact hx)
        exact ⟨h.1, fun hm => by rw [← hd2]; exact h.2 hm⟩
    · rw [if_neg hf]
      rcases processLeaf_prog_spec env d name ntype mime id link parent st with
        h | ⟨hid, hnd, ⟨h, -⟩ | h | h⟩ <;> rw [h]
      · exact ⟨hx, fun hm => hm⟩
      · exact ⟨Finset.mem_insert_of_mem hx, fun hm => hm⟩
      · exact ⟨Finset.mem_insert_of_mem hx, fun hm => Finset.mem_of_mem_erase hm⟩
      · refine ⟨hx, fun hm => ?_⟩
        rcases Finset.mem_insert.mp hm with hm | hm
        · exact absurd (hm ▸ hx) hnd
        · exact hm

theorem processChildren_done_stays (env : Env) (d : Bool) (cs : List Node)
    (path : String) (st : St) (x : String)
    (hx : x ∈ st.prog.done_ids) :
    x ∈ (processChildren env d cs path st).1.prog.done_ids ∧
    (x ∈ (processChildren env d cs path st).1.prog.failed_ids →
      x ∈ st.prog.failed_ids) := by
  cases cs with
  | nil =>
    rw [processChildren]
    exact ⟨hx, fun hm => hm⟩
  | cons c rest =>
    rw [processChildren]
    dsimp only
    have h1 := processNode_done_stays env d c path st x hx
    have h2 := processChildren_done_stays env d rest path
      ((processNode env d c path st).1) x h1.1
    exact ⟨h2.1, fun hm => h1.2 (h2.2 hm)⟩

end

mutual

/-- With the remote-existence fallback disabled, disjointness of
    `done_ids` and `failed_ids` is preserved by every step. -/
theorem processNode_disjoint (env : Env) (d : Bool) (n : Node)
    (parent : String) (st : St)
    (hre : ∀ a b, env.existsRemote a b = false)
    (hinv : ∀ x ∈ st.prog.done_ids, x ∉ st.prog.failed_ids) :
    ∀ x ∈ (processNode env d n parent st).1.prog.done_ids,
      x ∉ (processNode env d n parent st).1.prog.failed_ids := by
  cases n with
  | mk name ntype mime id link children =>
    rw [processNode]
    by_cases hf : ntype = "folder"
    · rw [if_pos hf]
      by_cases hskip :
          folderDest parent name ∈ st.prog.created_folders ∧ d = false
      · rw [if_pos hskip]
        exact processChildren_disjoint env d children
          (folderDest parent name) st hre hinv
      · rw [if_neg hskip]
        dsimp only
        refine processChildren_disjoint env d children
          (folderDest parent name)
          (if d then st else recordFolder (folderDest parent name) st) hre ?_
        cases d <;> simpa using hinv
    · rw [if_neg hf]
      rcases processLeaf_prog_spec env d name ntype mime id link parent st with
        h | ⟨hid, hnd, ⟨-, hg⟩ | h | h⟩
      · rw [h]; exact hinv
      · rw [hre parent (sanitize_name name)] at hg
        cases hg
      · rw [h]
        intro x hxm
        rcases Finset.mem_insert.mp hxm with hxm | hxm
        · subst hxm
          exact Finset.not_mem_erase x _
        · intro hc
          exact hinv x hxm (Finset.mem_of_mem_erase hc)
      · rw [h]
        intro x hxm hc
        rcases Finset.mem_insert.mp hc with hc | hc
        · exact hnd (hc ▸ hxm)
        · exact hinv x hxm hc

theorem processChildren_disjoint (env : Env) (d : Bool) (cs : List Node)
    (path : String) (st : St)
    (hre : ∀ a b, env.existsRemote a b = false)
    (hinv : ∀ x ∈ st.prog.done_ids, x ∉ st.prog.failed_ids) :
    ∀ x ∈ (processChildren env d cs path st).1.prog.done_ids,
      x ∉ (processChildren env d cs path st).1.prog.failed_ids := by
  cases cs with
  | nil =>
    rw [processChildren]
    exact hinv
  | cons c rest =>
    rw [processChildren]
    dsimp only
    exact processChildren_disjoint env d rest path
      ((processNode env d c path st).1)
      hre (processNode_disjoint env d c path st hre hinv)

end

mutual

/-- Stats and outcome accounting over a whole subtree. -/
theorem processNode_stats (env : Env) (d : Bool) (n : Node)
    (parent : String) (st : St) :
    (processNode env d n parent st).1.stats.total_files + st.stats.done +
        st.stats.failed =
      st.stats.total_files + (processNode env d n parent st).1.stats.done +
        (processNode env d n parent st).1.stats.failed ∧
    (processNode env d n parent st).1.stats.skipped + st.stats.done ≤
      st.stats.skipped + (processNode env d n parent st).1.stats.done ∧
    (processNode env d n parent st).2.countP isOutcome +
        st.stats.total_files =
      (processNode env d n parent st).1.stats.total_files := by
  cases n with
  | mk name ntype mime id link children =>
    rw [processNode]
    by_cases hf : ntype = "folder"
    · rw [if_pos hf]
      by_cases hskip :
          folderDest parent name ∈ st.prog.created_folders ∧ d = false
      · rw [if_pos hskip]
        exact processChildren_stats env d children (folderDest parent name) st
      · rw [if_neg hskip]
        dsimp only
        obtain ⟨h1, h2, h3⟩ := processChildren_stats env d children
          (folderDest parent name)
          (if d then st else recordFolder (folderDest parent name) st)
        have hst : (if d then st else
            recordFolder (folderDest parent name) st).stats = st.stats := by
          cases d <;> simp
        rw [hst] at h1 h2 h3
        have hev : ((if d then [] else
            [Event.mkdir (folderDest parent name)]) : List Event).countP
              isOutcome = 0 := by
          cases d <;> simp [isOutcome]
        rw [List.countP_append, hev]
        exact ⟨h1, h2, by omega⟩
    · rw [if_neg hf]
      exact processLeaf_stats env d name ntype mime id link parent st

theorem processChildren_stats (env : Env) (d : Bool) (cs : List Node)
    (path : String) (st : St) :
    (processChildren env d cs path st).1.stats.total_files + st.stats.done +
        st.stats.failed =
      st.stats.total_files +
        (processChildren env d cs path st).1.stats.done +
        (processChildren env d cs path st).1.stats.failed ∧
    (processChildren env d cs path st).1.stats.skipped + st.stats.done ≤
      st.stats.skipped + (processChildren env d cs path st).1.stats.done ∧
    (processChildren env d cs path st).2.countP isOutcome +
        st.stats.total_files =
      (processChildren env d cs path st).1.stats.total_files := by
  cases cs with
  | nil =>
    rw [processChildren]
    exact ⟨rfl, le_refl _, by simp⟩
  | cons c rest =>
    rw [processChildren]
    dsimp only
    obtain ⟨h1, h2, h3⟩ := processNode_stats env d c path st
    obtain ⟨h4, h5, h6⟩ := processChildren_stats env d rest path
      ((processNode env d c path st).1)
    rw [List.countP_append]
    exact ⟨by omega, by omega, by omega⟩

end

mutual

/-- The orchestrator never records the empty id as done. -/
theorem processNode_no_empty_done (env : Env) (d : Bool) (n : Node)
    (parent : String) (st : St) (h : "" ∉ st.prog.done_ids) :
    "" ∉ (processNode env d n parent st).1.prog.done_ids := by
  cases n with
  | mk name ntype mime id link children =>
    rw [processNode]
    by_cases hf : ntype = "folder"
    · rw [if_pos hf]
      by_cases hskip :
          folderDest parent name ∈ st.prog.created_folders ∧ d = false
      · rw [if_pos hskip]
        exact processChildren_no_empty_done env d children
          (folderDest parent name) st h
      · rw [if_neg hskip]
        dsimp only
        refine processChildren_no_empty_done env d children
          (folderDest parent name)
          (if d then st else recordFolder (folderDest parent name) st) ?_
        cases d <;> simpa using h
    · rw [if_neg hf]
      rcases processLeaf_prog_spec env d name ntype mime id link parent st with
        hp | ⟨hid, -, ⟨hp, -⟩ | hp | hp⟩ <;> rw [hp]
      · exact h
      · simp [Finset.mem_insert, h, Ne.symm hid]
      · simp [Finset.mem_insert, h, Ne.symm hid]
      · exact h

theorem processChildren_no_empty_done (env : Env) (d : Bool) (cs : List Node)
    (path : String) (st : St) (h : "" ∉ st.prog.done_ids) :
    "" ∉ (processChildren env d cs path st).1.prog.done_ids := by
  cases cs with
  | nil =>
    rw [processChildren]
    exact h
  | cons c rest =>
    rw [processChildren]
    dsimp only
    exact processChildren_no_empty_done env d rest path
      ((processNode env d c path st).1)
      (processNode_no_empty_done env d c path st h)

end

/-! ## Claim theorems for the orchestrator -/

/-- C1: re-running over an identical tree with the same ledger does no
    redundant work.  (i) A file node whose non-empty id is already in
    `done_ids` short-circuits to the `skippedAlreadyDone` outcome — its
    whole trace is that single outcome record, so no gateway call and no
    transfer happen for that id.  (ii) No mkdir is ever invoked for a
    destination path already in `materializedDirectories`.  (iii) The
    orchestrator never records the empty id as done, so the non-emptiness
    premise of (i) holds for every id a previous run put in the ledger. -/
theorem rerun_idempotent :
    (∀ (env : Env) (name mime id link : String) (children : List Node)
        (parent : String) (st : St), id ≠ "" → id ∈ st.prog.done_ids →
      processNode env false (.mk name "file" mime id link children) parent
          st =
        (addSkipDone (addTotal st), [Event.outcome .skippedAlreadyDone])) ∧
    (∀ (env : Env) (n : Node) (parent : String) (st : St) (q : String),
      q ∈ st.prog.created_folders →
      Event.mkdir q ∉ (processNode env false n parent st).2) ∧
    (∀ (env : Env) (d : Bool) (n : Node) (parent : String) (st : St),
      "" ∉ st.prog.done_ids →
      "" ∉ (processNode env d n parent st).1.prog.done_ids) := by
  refine ⟨?_, processNode_no_mkdir, processNode_no_empty_done⟩
  intro env name mime id link children parent st hid hmem
  rw [processNode]
  rw [if_neg (by decide : ¬ ("file" = "folder"))]
  exact processLeaf_eq_skip1 env false name "file" mime id link parent st rfl
    ⟨rfl, hid, hmem⟩

/-- C1 witness. -/
theorem rerun_idempotent_witness :
    processNode ⟨fun _ => true, fun _ _ => false, fun _ _ => none,
        fun _ _ => false, fun _ _ => false⟩ false
      (.mk "v" "file" "video/mp4" "id1" "L" []) "R"
      ⟨stats0, ⟨{"id1"}, ∅, ∅⟩⟩ =
      (addSkipDone (addTotal ⟨stats0, ⟨{"id1"}, ∅, ∅⟩⟩),
       [Event.outcome .skippedAlreadyDone]) ∧
    Event.mkdir "A" ∉ (processNode ⟨fun _ => true, fun _ _ => false,
        fun _ _ => none, fun _ _ => false, fun _ _ => false⟩ false
      (.mk "A" "folder" "" "" "" []) "" ⟨stats0, ⟨∅, ∅, {"A"}⟩⟩).2 :=
  ⟨rerun_idempotent.1 _ "v" "video/mp4" "id1" "L" [] "R" _ (by decide)
      (by decide),
   rerun_idempotent.2.1 _ _ "" _ "A" (by decide)⟩

/-- C6 counterexample: an environment whose mkdir always fails; processing a
    fresh folder "A" still invokes mkdir and then records "A" as
    materialized, contradicting "adds the path only when mkdir succeeds". -/
theorem mkdir_failure_recorded :
    Env.mkdirOk ⟨fun _ => false, fun _ _ => false, fun _ _ => none,
      fun _ _ => false, fun _ _ => false⟩ "A" = false ∧
    Event.mkdir "A" ∈ (processNode ⟨fun _ => false, fun _ _ => false,
      fun _ _ => none, fun _ _ => false, fun _ _ => false⟩ false
      (.mk "A" "folder" "" "" "" []) "" ⟨stats0, ⟨∅, ∅, ∅⟩⟩).2 ∧
    "A" ∈ (processNode ⟨fun _ => false, fun _ _ => false, fun _ _ => none,
      fun _ _ => false, fun _ _ => false⟩ false
      (.mk "A" "folder" "" "" "" []) ""
      ⟨stats0, ⟨∅, ∅, ∅⟩⟩).1.prog.created_folders := by
  refine ⟨rfl, ?_, ?_⟩ <;> decide

/-- C6 amended: for a folder node whose destination path is not yet
    materialized (live mode), the Orchestrator invokes the Gateway mkdir and
    then adds the path to `materializedDirectories` unconditionally — the
    mkdir result is ignored, so the path is recorded even after a failed
    mkdir. -/
theorem folder_mkdir_unconditional (env : Env)
    (name mime id link : String) (children : List Node)
    (parent : String) (st : St)
    (h : folderDest parent name ∉ st.prog.created_folders) :
    Event.mkdir (folderDest parent name) ∈
      (processNode env false (.mk name "folder" mime id link children)
        parent st).2 ∧
    folderDest parent name ∈
      (processNode env false (.mk name "folder" mime id link children)
        parent st).1.prog.created_folders := by
  rw [processNode]
  rw [if_pos rfl]
  rw [if_neg (by simp [h])]
  dsimp only
  constructor
  · rw [List.mem_append]
    left
    simp
  · exact processChildren_created_mono env false children
      (folderDest parent name)
      (if false then st else recordFolder (folderDest parent name) st)
      (by simp)

/-- C6 amended witness. -/
theorem folder_mkdir_unconditional_witness :
    Event.mkdir (folderDest "" "B") ∈
      (processNode ⟨fun _ => false, fun _ _ => false, fun _ _ => none,
        fun _ _ => false, fun _ _ => false⟩ false
        (.mk "B" "folder" "" "" "" []) "" ⟨stats0, ⟨∅, ∅, ∅⟩⟩).2 ∧
    folderDest "" "B" ∈
      (processNode ⟨fun _ => false, fun _ _ => false, fun _ _ => none,
        fun _ _ => false, fun _ _ => false⟩ false
        (.mk "B" "folder" "" "" "" []) ""
        ⟨stats0, ⟨∅, ∅, ∅⟩⟩).1.prog.created_folders :=
  folder_mkdir_unconditional _ "B" "" "" "" [] "" _ (by decide)

/-- C7 counterexample: id "2" is in `failed_ids`; the file is reported as
    already existing on the remote, so the fallback skip adds "2" to
    `done_ids` without discarding it from `failed_ids` — after the step the
    id is in BOTH sets, contradicting mutual exclusivity. -/
theorem completed_failed_overlap :
    "2" ∈ (processNode ⟨fun _ => true, fun _ _ => true, fun _ _ => none,
      fun _ _ => false, fun _ _ => false⟩ false
      (.mk "f" "file" "" "2" "" []) "R"
      ⟨stats0, ⟨∅, {"2"}, ∅⟩⟩).1.prog.done_ids ∧
    "2" ∈ (processNode ⟨fun _ => true, fun _ _ => true, fun _ _ => none,
      fun _ _ => false, fun _ _ => false⟩ false
      (.mk "f" "file" "" "2" "" []) "R"
      ⟨stats0, ⟨∅, {"2"}, ∅⟩⟩).1.prog.failed_ids := by
  constructor <;> decide

/-- C7 amended: completed/failed exclusivity holds for every step other
    than the remote-existence fallback skip: (i) with that fallback disabled
    disjointness of `done_ids` and `failed_ids` is preserved by every node;
    (ii) unconditionally, an id in `done_ids` stays there and is never newly
    added to `failed_ids`; (iii) a successful transfer of a not-yet-done id
    moves it into `done_ids` and removes it from `failed_ids`
    (failed → completed). -/
theorem ledger_exclusivity :
    (∀ (env : Env) (d : Bool) (n : Node) (parent : String) (st : St),
      (∀ a b, env.existsRemote a b = false) →
      (∀ x ∈ st.prog.done_ids, x ∉ st.prog.failed_ids) →
      ∀ x ∈ (processNode env d n parent st).1.prog.done_ids,
        x ∉ (processNode env d n parent st).1.prog.failed_ids) ∧
    (∀ (env : Env) (d : Bool) (n : Node) (parent : String) (st : St)
        (x : String), x ∈ st.prog.done_ids →
      x ∈ (processNode env d n parent st).1.prog.done_ids ∧
      (x ∈ (processNode env d n parent st).1.prog.failed_ids →
        x ∈ st.prog.failed_ids)) ∧
    (∀ (env : Env) (name mime id link : String) (children : List Node)
        (parent : String) (st : St),
      id ≠ "" → id ∉ st.prog.done_ids →
      env.existsRemote parent (sanitize_name name) = false →
      mime ≠ "video/mp4" →
      env.directOk id (sanitize_name name) = true →
      env.uploadOk (TEMP_DIR ++ "/" ++ sanitize_name name) parent = true →
      (processNode env false (.mk name "file" mime id link children) parent
          st).1.prog.done_ids = insert id st.prog.done_ids ∧
      (processNode env false (.mk name "file" mime id link children) parent
          st).1.prog.failed_ids = st.prog.failed_ids.erase id) := by
  refine ⟨processNode_disjoint, processNode_done_stays, ?_⟩
  intro env name mime id link children parent st hid hnd hex hmime hdir hup
  rw [processNode]
  rw [if_neg (by decide : ¬ ("file" = "folder"))]
  rw [processLeaf_eq_transfer env false name "file" mime id link parent st
    rfl (Or.inr (Or.inr hnd)) (Or.inr hex)]
  rw [transferFile_eq_direct_ok env false name mime id link parent
    (addTotal st) (if false then [] else [Event.listRemote parent]) hmime
    (by simp [hdir])]
  rw [finishUpload_eq_ok env false id (TEMP_DIR ++ "/" ++ sanitize_name name)
    parent (addTotal st) _ (by simp [hup])]
  constructor <;> simp [hid]

/-- C7 amended witness: the failed id "2" moves to completed and out of
    failed on a successful transfer. -/
theorem ledger_exclusivity_witness :
    (processNode ⟨fun _ => true, fun _ _ => false, fun _ _ => none,
        fun _ _ => true, fun _ _ => true⟩ false
      (.mk "f" "file" "" "2" "" []) "R"
      ⟨stats0, ⟨∅, {"2"}, ∅⟩⟩).1.prog.done_ids =
        insert "2" (⟨stats0, (⟨∅, {"2"}, ∅⟩ : Progress)⟩ : St).prog.done_ids ∧
    (processNode ⟨fun _ => true, fun _ _ => false, fun _ _ => none,
        fun _ _ => true, fun _ _ => true⟩ false
      (.mk "f" "file" "" "2" "" []) "R"
      ⟨stats0, ⟨∅, {"2"}, ∅⟩⟩).1.prog.failed_ids =
        (⟨stats0, (⟨∅, {"2"}, ∅⟩ : Progress)⟩ : St).prog.failed_ids.erase "2" :=
  ledger_exclusivity.2.2 _ "f" "" "2" "" [] "R" _ (by decide) (by decide)
    rfl (by decide) rfl rfl

/-- C9 counterexample: one file node whose id is already completed is
    counted in BOTH `done` and `skipped`, so `totalFiles = 1` while
    `done + skipped + failed = 2` — the claimed equation fails. -/
theorem stats_not_sum_counterexample :
    (processNode ⟨fun _ => true, fun _ _ => false, fun _ _ => none,
        fun _ _ => false, fun _ _ => false⟩ false
      (.mk "f" "file" "" "x" "" []) ""
      ⟨stats0, ⟨{"x"}, ∅, ∅⟩⟩).1.stats.total_files ≠
    (processNode ⟨fun _ => true, fun _ _ => false, fun _ _ => none,
        fun _ _ => false, fun _ _ => false⟩ false
      (.mk "f" "file" "" "x" "" []) ""
      ⟨stats0, ⟨{"x"}, ∅, ∅⟩⟩).1.stats.done +
    (processNode ⟨fun _ => true, fun _ _ => false, fun _ _ => none,
        fun _ _ => false, fun _ _ => false⟩ false
      (.mk "f" "file" "" "x" "" []) ""
      ⟨stats0, ⟨{"x"}, ∅, ∅⟩⟩).1.stats.skipped +
    (processNode ⟨fun _ => true, fun _ _ => false, fun _ _ => none,
        fun _ _ => false, fun _ _ => false⟩ false
      (.mk "f" "file" "" "x" "" []) ""
      ⟨stats0, ⟨{"x"}, ∅, ∅⟩⟩).1.stats.failed := by
  decide

/-- C9 amended: every file node yields exactly one terminal outcome (the
    outcome count equals `totalFiles`); each outcome increments `done` on
    success, `failed` on failure, and BOTH `skipped` and `done` on a skip —
    so from zero stats `totalFiles = done + failed` and `skipped ≤ done`. -/
theorem stats_accounting (env : Env) (d : Bool) (n : Node) (parent : String)
    (pr : Progress) :
    (processNode env d n parent ⟨stats0, pr⟩).1.stats.total_files =
      (processNode env d n parent ⟨stats0, pr⟩).1.stats.done +
        (processNode env d n parent ⟨stats0, pr⟩).1.stats.failed ∧
    (processNode env d n parent ⟨stats0, pr⟩).1.stats.skipped ≤
      (processNode env d n parent ⟨stats0, pr⟩).1.stats.done ∧
    (processNode env d n parent ⟨stats0, pr⟩).2.countP isOutcome =
      (processNode env d n parent ⟨stats0, pr⟩).1.stats.total_files := by
  obtain ⟨h1, h2, h3⟩ := processNode_stats env d n parent ⟨stats0, pr⟩
  simp only [stats0] at h1 h2 h3 ⊢
  exact ⟨by omega, by omega, by omega⟩

end Getdrive
